import Mathlib

/-!
Verification of the Topaz TCG Opal library core against its specification.

The atom codec is embedded from `src/topaz/atom.cpp` (shipped inside
`serializable.h`), the drive engine from `drive.cpp`.  Machine integers are
modelled as `Nat` carrying the 64-bit two's-complement bit pattern
(`uint_val` is the C union of `uint64_t uint_val` / `int64_t int_val`);
bit masks `x & (2^k - 1)` are written `x % 2^k` and shifts `x >> k` are
written `x / 2^k`, which agree with the C semantics on the byte-sized
values involved.
-/

namespace Topaz

/-- Big-endian byte `i` (0 = most significant) of a 64-bit value: entry
`raw[i]` of the C union `{ uint64_t flip; byte raw[8]; }` after
`flip = htobe64(value)`. -/
def beByte (p i : Nat) : Nat := p / 2 ^ (8 * (7 - i)) % 256

/-- Low `k` bytes of a value, most significant first. -/
def lowBytes (p k : Nat) : List Nat :=
  (List.range k).map (fun j => p / 2 ^ (8 * (k - 1 - j)) % 256)

/-- Big-endian value of a byte list: `be64toh` of a raw byte array. -/
def beVal (bs : List Nat) : Nat := bs.foldl (fun acc b => acc * 256 + b) 0

/-- The 8 big-endian bytes of a 64-bit value. -/
def beBytes8 (v : Nat) : List Nat := (List.range 8).map (beByte v)

/-- Leading-byte skip loop shared by the integer constructors of
`atom.cpp`: `for (int_skip = 0; (int_skip < 8) && cond(int_skip); int_skip++)`. -/
def skipCount (cond : Nat → Bool) : Nat → Nat → Nat
  | s, 0 => s
  | s, fuel + 1 => if s < 8 && cond s then skipCount cond (s + 1) fuel else s

/-- Loop condition of the unsigned constructor: drop leading `0x00` bytes. -/
def uintSkipCond (p : Nat) (i : Nat) : Bool := beByte p i == 0

/-- Loop condition of the signed constructor, negative case: drop leading
`0xff` bytes while the next byte still has bit 7 set. -/
def negSkipCond (p : Nat) (i : Nat) : Bool :=
  beByte p i == 0xff && beByte p (i + 1) / 0x80 % 2 == 1

/-- Loop condition of the signed constructor, positive case: drop leading
`0x00` bytes while the next byte still has bit 7 clear. -/
def posSkipCond (p : Nat) (i : Nat) : Bool :=
  beByte p i == 0 && beByte p (i + 1) / 0x80 % 2 == 0

/-- Enum `atom::type_t`. -/
inductive atom_type_t
  | EMPTY
  | UINT
  | INT
  | BYTES
deriving DecidableEq

/-- Enum `atom::enc_t`. -/
inductive atom_enc_t
  | NONE
  | TINY
  | SHORT
  | MEDIUM
  | LONG
deriving DecidableEq

/-- Class `topaz::atom`: `uint_val` is the 64-bit pattern of the
`uint_val`/`int_val` union. -/
structure atom where
  data_type : atom_type_t
  data_enc : atom_enc_t
  int_skip : Nat
  uint_val : Nat
  bytes : List Nat
deriving DecidableEq

/-- Method `atom::get_header_size`. -/
def atom.get_header_size (a : atom) : Nat :=
  match a.data_enc with
  | .NONE | .TINY => 0
  | .SHORT => 1
  | .MEDIUM => 2
  | .LONG => 4

/-- Method `atom::size` (encoded size query). -/
def atom.size (a : atom) : Nat :=
  if a.data_type = .EMPTY ∨ a.data_enc = .TINY then 1
  else if a.data_type = .BYTES then a.get_header_size + a.bytes.length
  else a.get_header_size + (8 - a.int_skip)

/-- Method `atom::encode_bytes`.  Returns the encoded byte list (the C
version writes into a caller buffer and returns the byte count). -/
def atom.encode_bytes (a : atom) : List Nat :=
  match a.data_type with
  | .EMPTY => [0xff]
  | t =>
    let len : Nat := if t = .BYTES then a.bytes.length else 8 - a.int_skip
    let enc_data : List Nat :=
      if t = .BYTES then a.bytes
      else (List.range (8 - a.int_skip)).map (fun j => beByte a.uint_val (a.int_skip + j))
    match a.data_enc with
    | .TINY =>
        [(if a.data_type = .INT then 0x40 else 0) + a.uint_val % 0x40]
    | .SHORT =>
        (0x80 + (if a.data_type = .BYTES then 0x20 else 0) +
          (if a.data_type = .INT then 0x10 else 0) + len) :: enc_data
    | .MEDIUM =>
        (0xc0 + (if a.data_type = .BYTES then 0x10 else 0) +
          (if a.data_type = .INT then 0x08 else 0) + len / 256) ::
        (len % 256) :: enc_data
    | _ =>
        (0xe0 + (if a.data_type = .BYTES then 0x02 else 0) +
          (if a.data_type = .INT then 0x01 else 0)) ::
        (len / 65536 % 256) :: (len / 256 % 256) :: (len % 256) :: enc_data

/-- Method `atom::decode_set_type`. -/
def atom.decode_set_type (bits : Nat) : Except String atom_type_t :=
  if bits = 0 then .ok .UINT
  else if bits = 1 then .ok .INT
  else if bits = 2 then .ok .BYTES
  else .error "Invalid / Unhandled atom type"

/-- Method `atom::decode_int`: rebuilds the 8-byte raw array (sign-extending
negative values) and returns `(int_skip, uint_val)`. -/
def atom.decode_int (ty : atom_type_t) (payload : List Nat) : Except String (Nat × Nat) :=
  let len := payload.length
  if len = 0 ∨ 8 < len then .error "Invalid integer Atom length"
  else
    let s := 8 - len
    let ext : Prop := ty = .INT ∧ payload.getD 0 0 / 0x80 % 2 = 1
    let raw : Nat → Nat := fun i =>
      if i < s then (if ext then 0xff else 0) else payload.getD (i - s) 0
    .ok (s, beVal ((List.range 8).map raw))

/-- Method `atom::decode_bytes`.  Returns the decoded atom and the number of
bytes consumed. -/
def atom.decode_bytes (data : List Nat) : Except String (atom × Nat) :=
  if data.length < 1 then .error "Atom encoding too short"
  else
    let b0 := data.getD 0 0
    if b0 = 0xff then .ok (⟨.EMPTY, .NONE, 0, 0, []⟩, 1)
    else if b0 < 0x80 then
      match atom.decode_set_type (b0 / 64 % 4) with
      | .error e => .error e
      | .ok ty =>
        let v0 := b0 % 0x40
        let v := if ty = .INT ∧ b0 / 0x20 % 2 = 1 then 2 ^ 64 - 0x40 + v0 else v0
        .ok (⟨ty, .TINY, 0, v, []⟩, 1)
    else
      match (if b0 < 0xc0 then
               .ok (atom_enc_t.SHORT, 1, b0 / 16 % 4, b0 % 16)
             else if b0 < 0xe0 then
               if data.length < 2 then .error "Atom encoding too short"
               else .ok (.MEDIUM, 2, b0 / 8 % 4, b0 % 8 * 256 + data.getD 1 0)
             else if b0 < 0xe4 then
               if data.length < 4 then .error "Atom encoding too short"
               else .ok (.LONG, 4, b0 % 4,
                 (data.getD 1 0 * 256 + data.getD 2 0) * 256 + data.getD 3 0)
             else .error "Cannot parse atom (invalid token)" :
             Except String (atom_enc_t × Nat × Nat × Nat)) with
      | .error e => .error e
      | .ok (enc, head_bytes, type_bits, count) =>
        match atom.decode_set_type type_bits with
        | .error e => .error e
        | .ok ty =>
          if data.length < head_bytes + count then .error "Atom encoding too short"
          else
            let payload := (data.drop head_bytes).take count
            if ty = .BYTES then .ok (⟨ty, enc, 0, 0, payload⟩, head_bytes + count)
            else
              match atom.decode_int ty payload with
              | .error e => .error e
              | .ok (s, v) => .ok (⟨ty, enc, s, v, []⟩, head_bytes + count)

/-- Operator `atom::operator==`: same type, same encoding, and the
type-relevant payload matches. -/
def atom.eqOp (a ref : atom) : Bool :=
  if a.data_type = ref.data_type ∧ a.data_enc = ref.data_enc then
    match a.data_type with
    | .UINT | .INT => a.uint_val == ref.uint_val
    | .BYTES => a.bytes == ref.bytes
    | _ => true
  else false

/-- Method `atom::get_uid`: only valid on a short bytes atom of length 8. -/
def atom.get_uid (a : atom) : Except String Nat :=
  if a.data_type ≠ .BYTES ∨ a.data_enc ≠ .SHORT ∨ a.bytes.length ≠ 8 then
    .error "Invalid UID Atom"
  else .ok (beVal a.bytes)

/-- Method `atom::get_uint`. -/
def atom.get_uint (a : atom) : Except String Nat :=
  if a.data_type ≠ .UINT then .error "Atom is not unsigned integer"
  else .ok a.uint_val

/-- Method `atom::pick_encoding`. -/
def atom.pick_encoding (byte_count : Nat) : Except String atom_enc_t :=
  if byte_count < 16 then .ok .SHORT
  else if byte_count < 2048 then .ok .MEDIUM
  else if byte_count < 16777216 then .ok .LONG
  else .error "Atom too large to encode"

/-- Constructor `atom::atom(uint64_t, bool)` with `is_uid = true`: an 8-byte
short binary atom holding the value big-endian (`pick_encoding(8)` yields
`SHORT`; `uint_val` keeps the integer as the C constructor leaves it). -/
def atom.new_uid (v : Nat) : atom := ⟨.BYTES, .SHORT, 0, v, beBytes8 v⟩

/-- Constructor `atom::atom(uint64_t, bool)` with `is_uid = false`. -/
def atom.new_uint (v : Nat) : atom :=
  if v < 0x40 then ⟨.UINT, .TINY, 0, v, []⟩
  else ⟨.UINT, .SHORT, skipCount (uintSkipCond v) 0 8, v, []⟩

/-- Two's-complement 64-bit pattern of a signed value (`htobe64` argument). -/
def intPattern (v : Int) : Nat := (v % (2 : Int) ^ 64).toNat

/-- Constructor `atom::atom(int64_t)`. -/
def atom.new_int (v : Int) : atom :=
  let p := intPattern v
  if v < 0x20 ∧ -0x20 ≤ v then ⟨.INT, .TINY, 0, p, []⟩
  else if v < 0 then ⟨.INT, .SHORT, skipCount (negSkipCond p) 0 8, p, []⟩
  else ⟨.INT, .SHORT, skipCount (posSkipCond p) 0 8, p, []⟩

/-- Constructor `atom::atom(byte const *, size_t)`; the source throws for
lengths of 2^24 or more (the fallback branch here), which well-formedness
excludes. -/
def atom.new_bin (bs : List Nat) : atom :=
  ⟨.BYTES, (match atom.pick_encoding bs.length with | .ok e => e | .error _ => .LONG),
    0, 0, bs⟩

/-- Well-formed atoms: the shapes producible by the constructors of
`atom.cpp` (junk fields that neither `size`, `encode_bytes` nor
`operator==` consult are unconstrained). -/
def WellFormed (a : atom) : Prop :=
  (a.data_type = .EMPTY ∧ a.data_enc = .NONE)
  ∨ (a.data_type = .UINT ∧
      ((a.data_enc = .TINY ∧ a.uint_val < 0x40)
       ∨ (a.data_enc = .SHORT ∧ 0x40 ≤ a.uint_val ∧ a.uint_val < 2 ^ 64 ∧
           a.int_skip = skipCount (uintSkipCond a.uint_val) 0 8)))
  ∨ (a.data_type = .INT ∧
      ((a.data_enc = .TINY ∧
          (a.uint_val < 0x20 ∨ (2 ^ 64 - 0x20 ≤ a.uint_val ∧ a.uint_val < 2 ^ 64)))
       ∨ (a.data_enc = .SHORT ∧
           ((0x20 ≤ a.uint_val ∧ a.uint_val < 2 ^ 63 ∧
               a.int_skip = skipCount (posSkipCond a.uint_val) 0 8)
            ∨ (2 ^ 63 ≤ a.uint_val ∧ a.uint_val < 2 ^ 64 - 0x20 ∧
               a.int_skip = skipCount (negSkipCond a.uint_val) 0 8)))))
  ∨ (a.data_type = .BYTES ∧
      ((a.data_enc = .SHORT ∧ a.bytes.length < 16)
       ∨ (a.data_enc = .MEDIUM ∧ a.bytes.length < 2048)
       ∨ (a.data_enc = .LONG ∧ a.bytes.length < 16777216)))

/-- Enum `datum::type_t` (part_000, datum.h). -/
inductive datum_type_t
  | UNSET
  | ATOM
  | NAMED
  | LIST
  | METHOD
  | END_SESSION
deriving DecidableEq

/-- Datum tree (part_000, datum.h): atoms, named pairs, lists, method calls
(carrying the trailing status on replies) and the end-of-session token. -/
inductive datum where
  | unset : datum
  | atomD (a : atom) : datum
  | named (name : atom) (value : datum) : datum
  | listD (items : List datum) : datum
  | methodD (object_uid : Nat) (method_uid : Nat) (args : List datum) (status : Nat) : datum
  | endSession : datum

/-- Method `datum::get_type`. -/
def datum.get_type : datum → datum_type_t
  | .unset => .UNSET
  | .atomD _ => .ATOM
  | .named _ _ => .NAMED
  | .listD _ => .LIST
  | .methodD _ _ _ _ => .METHOD
  | .endSession => .END_SESSION

/-- Method `datum::object_uid` (the stored member; meaningful on method
calls only). -/
def datum.object_uid : datum → Nat
  | .methodD o _ _ _ => o
  | _ => 0

mutual

/-- Modelled from the spec: `datum::decode_bytes` (datum.cpp is not among
the provided sources; this follows spec section 4.2, "Decoding").  Peek the
first byte: 0xF0 starts a list, 0xF2 a named pair (atom name, datum value,
closing 0xF3), 0xF8 a method call (two UID byte-atoms, bracketed argument
list, END_OF_DATA, then the three-element status list whose first entry is
recorded as the status), 0xFA is end-of-session, anything else is tried as
an atom.  Fuel-indexed to bound the recursion; returns the datum and the
number of bytes consumed. -/
def datumDecode : Nat → List Nat → Except String (datum × Nat)
  | 0, _ => .error "Datum decode recursion limit"
  | fuel + 1, data =>
    match data.head? with
    | none => .error "Datum encoding too short"
    | some b0 =>
      if b0 = 0xf0 then
        match datumDecodeItems fuel (data.drop 1) with
        | .error e => .error e
        | .ok (items, n) => .ok (.listD items, 1 + n)
      else if b0 = 0xf2 then
        match atom.decode_bytes (data.drop 1) with
        | .error e => .error e
        | .ok (nm, n1) =>
          match datumDecode fuel (data.drop (1 + n1)) with
          | .error e => .error e
          | .ok (v, n2) =>
            if (data.drop (1 + n1 + n2)).head? = some 0xf3 then
              .ok (.named nm v, 1 + n1 + n2 + 1)
            else .error "Expected END_NAME"
      else if b0 = 0xf8 then
        match atom.decode_bytes (data.drop 1) with
        | .error e => .error e
        | .ok (inv, n1) =>
          match inv.get_uid with
          | .error e => .error e
          | .ok obj_uid =>
            match atom.decode_bytes (data.drop (1 + n1)) with
            | .error e => .error e
            | .ok (mth, n2) =>
              match mth.get_uid with
              | .error e => .error e
              | .ok mth_uid =>
                if (data.drop (1 + n1 + n2)).head? ≠ some 0xf0 then
                  .error "Expected START_LIST"
                else
                  match datumDecodeItems fuel (data.drop (1 + n1 + n2 + 1)) with
                  | .error e => .error e
                  | .ok (args, n3) =>
                    match data.drop (1 + n1 + n2 + 1 + n3) with
                    | 0xf9 :: 0xf0 :: st :: _r1 :: _r2 :: 0xf1 :: _ =>
                      .ok (.methodD obj_uid mth_uid args st, 1 + n1 + n2 + 1 + n3 + 6)
                    | _ => .error "Malformed method status list"
      else if b0 = 0xfa then .ok (.endSession, 1)
      else
        match atom.decode_bytes data with
        | .error e => .error e
        | .ok (a, n) => .ok (.atomD a, n)

/-- Modelled from the spec: child sequence of a list, consumed until the
closing END_LIST token; the returned count includes the END_LIST byte. -/
def datumDecodeItems : Nat → List Nat → Except String (List datum × Nat)
  | 0, _ => .error "Datum decode recursion limit"
  | fuel + 1, data =>
    match data.head? with
    | none => .error "Unterminated list"
    | some b0 =>
      if b0 = 0xf1 then .ok ([], 1)
      else
        match datumDecode fuel data with
        | .error e => .error e
        | .ok (d, n) =>
          match datumDecodeItems fuel (data.drop n) with
          | .error e => .error e
          | .ok (items, m) => .ok (d :: items, n + m)

end

/-- Method `datum::decode_vector`: decode from a byte vector, returning the
bytes consumed (trailing data is intentionally left unconsumed). -/
def datum.decode_vector (data : List Nat) : Except String (datum × Nat) :=
  datumDecode (data.length + 2) data

/-- Abstract error taxonomy of the drive engine: one constructor per
distinct `topaz_exception` site used below. -/
inductive topaz_err
  | invalidStatus
  | methodFailed (status : Nat)
  | comIdMismatch
  | timeout
  | oversize
  | sessionRequired
  | decodeFail (msg : String)
deriving DecidableEq

/-- Modelled from the spec: the well-known UID table (uid.h) is an external
collaborator ("Constants/UIDs ... data only"); only the identity of these
constants matters to the engine logic modelled here.  Value is the TCG
session-manager UID. -/
def SESSION_MGR : Nat := 0xff

/-- Modelled from the spec: Admin SP object UID (uid.h external). -/
def ADMIN_SP : Nat := 0x0000020500000001

/-- Modelled from the spec: Revert method UID (uid.h external). -/
def REVERT : Nat := 0x0000000600000202

/-- Reply processing of `drive::invoke` (part_000 lines 611-643): decode
the reply datum, require exactly six bytes of trailing data, read the
status byte at offset count+2 (third byte of the trailer), and fail when it
is nonzero.  The error value carries the status byte. -/
def drive.invoke_reply (bytes : List Nat) : Except topaz_err datum :=
  match datum.decode_vector bytes with
  | .error e => .error (.decodeFail e)
  | .ok (rc, count) =>
    if bytes.length - count ≠ 6 then .error .invalidStatus
    else
      let status := bytes.getD (count + 2) 0
      if status ≠ 0 then .error (.methodFailed status)
      else .ok rc

/-- Session-id placement of `drive::send` (datum variant, part_000 lines
1434-1448): session-manager method calls leave both u32 PacketHeader id
fields zero; any other outgoing datum requires a live session
(`host_session_id` nonzero) and carries the current pair (truncated to u32
by `htobe32`); with no session the send throws before transmitting. -/
def drive.send_session_ids (outbuf : datum) (tper_session_id host_session_id : Nat) :
    Except topaz_err (Nat × Nat) :=
  if outbuf.get_type = .METHOD ∧ outbuf.object_uid = SESSION_MGR then
    .ok (0, 0)
  else if host_session_id = 0 then .error .sessionRequired
  else .ok (tper_session_id % 2 ^ 32, host_session_id % 2 ^ 32)

/-- Macro `PAD_TO_MULTIPLE` of drive.cpp. -/
def PAD_TO_MULTIPLE (val mult : Nat) : Nat := (val + (mult - 1)) / mult * mult

def ATA_BLOCK_SIZE : Nat := 512

/-- Header sizes fixed by the spec section 4.3 struct layouts (defs.h is
not among the provided sources): ComPacketHeader 20 bytes, PacketHeader 24
bytes, SubPacketHeader 12 bytes. -/
def com_packet_header_size : Nat := 20

def packet_header_size : Nat := 24

def sub_packet_header_size : Nat := 12

/-- Size of `opal_header_t` (all three nested headers). -/
def opal_header_size : Nat :=
  com_packet_header_size + packet_header_size + sub_packet_header_size

/-- Transmitted envelope: total size and the three big-endian u32 length
fields. -/
structure send_envelope where
  tot_size : Nat
  com_length : Nat
  pkt_length : Nat
  sub_length : Nat
deriving DecidableEq

/-- Size computation, oversize check and header length fields of
`drive::send` (part_000 lines 665-726; the datum variant computes the same
sizes): throws before transmitting anything when the padded total exceeds
max_com_pkt_size. -/
def drive.send_sizes (payload_len max_com_pkt_size : Nat) : Except topaz_err send_envelope :=
  let sub_size := payload_len
  let pkt_size := PAD_TO_MULTIPLE (sub_size + sub_packet_header_size) 4
  let com_size := pkt_size + packet_header_size
  let tot_size := PAD_TO_MULTIPLE (com_size + com_packet_header_size) ATA_BLOCK_SIZE
  if tot_size > max_com_pkt_size then .error .oversize
  else .ok ⟨tot_size, com_size % 2 ^ 32, pkt_size % 2 ^ 32, sub_size % 2 ^ 32⟩

/-- One ComPacket as seen by an `if_recv` call (each call reads a single
512-byte block). -/
structure poll_resp where
  com_id : Nat
  com_length : Nat
  sub_length : Nat
  payload : List Nat

def POLL_MS : Nat := 10

def TIMEOUT_SECS : Nat := 5

/-- Poll budget of `drive::recv`: `(TIMEOUT_SECS * 1000) / POLL_MS`. -/
def recv_max_iters : Nat := TIMEOUT_SECS * 1000 / POLL_MS

/-- Do-while polling loop of `drive::recv` (byte-vector variant, part_000
lines 733-777).  `device k` is the ComPacket read by the (k+1)-th if_recv
call; `iters` is the remaining `max_iters` counter.  A ComID mismatch
throws immediately; a zero ComPacket length sleeps POLL_MS and retries
while `--max_iters > 0`, after which the `max_iters == 0` check throws
Timeout; otherwise the SubPacket payload (sub_length bytes) is returned.
Returns the outcome and the total number of if_recv calls.  (The `iters =
0` tests mirror the post-loop `max_iters == 0` check; from the initial
budget the counter is always positive on entry.) -/
def drive.recv_go (my_com_id : Nat) (device : Nat → poll_resp) :
    Nat → Nat → Except topaz_err (List Nat) × Nat
  | k, iters =>
    let r := device k
    if r.com_id ≠ my_com_id then (.error .comIdMismatch, k + 1)
    else if r.com_length = 0 then
      match iters with
      | 0 => (.error .timeout, k + 1)
      | 1 => (.error .timeout, k + 1)
      | n + 2 => drive.recv_go my_com_id device (k + 1) (n + 1)
    else
      ((if iters = 0 then .error .timeout
        else .ok (r.payload.take r.sub_length)), k + 1)

/-- Entry point of `drive::recv`: poll from the full budget. -/
def drive.recv (my_com_id : Nat) (device : Nat → poll_resp) :
    Except topaz_err (List Nat) × Nat :=
  drive.recv_go my_com_id device 0 recv_max_iters

/-- Wrap-around uint64 subtraction (`max_com_pkt_size` is uint64_t). -/
def u64sub (x y : Nat) : Nat := (x + 2 ^ 64 - y % 2 ^ 64) % 2 ^ 64

/-- Overhead subtraction chain of `drive::table_set_bin` (part_000 lines
487-493), in uint64 arithmetic: max_com_pkt_size minus the opal header (56),
the minimum method call (21), the offset argument (2+1+1+8), the data
argument header (2+1+4+0), the method status (5) and the packet padding
(3). -/
def drive.tsb_budget (max_com_pkt_size : Nat) : Nat :=
  u64sub (u64sub (u64sub (u64sub (u64sub
    (u64sub max_com_pkt_size opal_header_size) 21) (2 + 1 + 1 + 8)) (2 + 1 + 4 + 0)) 5) 3

/-- Chunk-size estimate of `drive::table_set_bin` (part_000 lines 487-496):
subtract the envelope and method-call overhead from max_com_pkt_size, then
round down to a multiple of 4096. -/
def drive.tsb_chunk_size (max_com_pkt_size : Nat) : Nat :=
  drive.tsb_budget max_com_pkt_size / 4096 * 4096

/-- Send loop of `drive::table_set_bin` (part_000 lines 499-518): while
data remains, invoke Set with the running offset and the next
min(chunk_size, len) bytes.  Fuel-indexed: `none` means the loop has not
finished within `fuel` iterations; `some cs` lists the (offset, bytes)
arguments of the successive Set invocations. -/
def drive.tsb_run (chunk_size : Nat) : List Nat → Nat → Nat → Option (List (Nat × List Nat))
  | data, offset, fuel =>
    if data.length = 0 then some []
    else
      match fuel with
      | 0 => none
      | fuel + 1 =>
        let send_size := min chunk_size data.length
        match drive.tsb_run chunk_size (data.drop send_size) (offset + send_size) fuel with
        | some rest => some ((offset, data.take send_size) :: rest)
        | none => none

/-- The invocation sequence `table_set_bin` sends for a given
max_com_pkt_size, when its loop terminates. -/
def drive.tsb_produces (max_com_pkt_size : Nat) (data : List Nat) (offset : Nat)
    (cs : List (Nat × List Nat)) : Prop :=
  ∃ fuel, drive.tsb_run (drive.tsb_chunk_size max_com_pkt_size) data offset fuel = some cs

/-- Initialisation value of max_com_pkt_size in the drive constructor
(part_000 line 327): 512 until Level-1 properties are learned. -/
def drive.initial_max_com_pkt_size : Nat := 512

/-- Externally visible protocol actions of the revert path. -/
inductive drive_action
  | invokeCall (object_uid method_uid : Nat)
  | endSessionToken
deriving DecidableEq

/-- Model of `drive::admin_sp_revert` (part_000 lines 649-657): invoke
Revert on the Admin SP; when the invocation returns, zero both session ids;
when it throws (e.g. a receive timeout), the exception propagates and the
ids are left untouched.  No EndSession exchange is attempted.  Returns the
action trace, the final (tper, host) pair and the propagated error. -/
def drive.admin_sp_revert (st : Nat × Nat) (invoke_result : Except topaz_err datum) :
    List drive_action × (Nat × Nat) × Option topaz_err :=
  match invoke_result with
  | .ok _ => ([.invokeCall ADMIN_SP REVERT], (0, 0), none)
  | .error e => ([.invokeCall ADMIN_SP REVERT], st, some e)

theorem beVal_foldl (bs : List Nat) (a : Nat) :
    bs.foldl (fun acc b => acc * 256 + b) a = a * 256 ^ bs.length + beVal bs := by
  induction bs generalizing a with
  | nil => simp [beVal]
  | cons b bs ih =>
    have hL : beVal (b :: bs) = bs.foldl (fun acc b => acc * 256 + b) b := by
      simp [beVal]
    simp only [List.foldl_cons, List.length_cons, hL]
    rw [ih (a * 256 + b), ih b]
    ring

theorem beVal_cons (b : Nat) (bs : List Nat) :
    beVal (b :: bs) = b * 256 ^ bs.length + beVal bs := by
  have hL : beVal (b :: bs) = bs.foldl (fun acc b => acc * 256 + b) b := by
    simp [beVal]
  rw [hL, beVal_foldl]

theorem lowBytes_succ (p k : Nat) :
    lowBytes p (k + 1) = (p / 2 ^ (8 * k) % 256) :: lowBytes p k := by
  unfold lowBytes
  rw [List.range_succ_eq_map, List.map_cons, List.map_map]
  refine List.cons_eq_cons.mpr ⟨?_, ?_⟩
  · simp only [Nat.add_sub_cancel, Nat.sub_zero]
  · apply List.map_congr_left
    intro j _
    simp only [Function.comp_apply]
    congr 3
    omega

theorem lowBytes_length (p k : Nat) : (lowBytes p k).length = k := by
  simp [lowBytes]

theorem beVal_lowBytes (p : Nat) : ∀ k, beVal (lowBytes p k) = p % 2 ^ (8 * k) := by
  intro k
  induction k with
  | zero => simp [lowBytes, beVal, Nat.mod_one]
  | succ k ih =>
    rw [lowBytes_succ, beVal_cons, lowBytes_length, ih]
    rw [show (256 : Nat) ^ k = 2 ^ (8 * k) by
      rw [show (256 : Nat) = 2 ^ 8 from rfl, ← pow_mul]]
    rw [show 8 * (k + 1) = 8 * k + 8 by ring, pow_add]
    rw [Nat.mod_mul]
    ring_nf

theorem digits_zero : ∀ k, ∀ q, q < 256 ^ k → (∀ j, j < k → q / 256 ^ j % 256 = 0) → q = 0 := by
  intro k
  induction k with
  | zero => intro q hq _; simpa using hq
  | succ k ih =>
    intro q hq hd
    have h0 : q % 256 = 0 := by simpa using hd 0 (by omega)
    have hq' : q / 256 < 256 ^ k := by
      apply Nat.div_lt_of_lt_mul
      rw [pow_succ] at hq
      omega
    have hd' : ∀ j, j < k → q / 256 / 256 ^ j % 256 = 0 := by
      intro j hj
      rw [Nat.div_div_eq_div_mul, ← pow_succ']
      exact hd (j + 1) (by omega)
    have := ih (q / 256) hq' hd'
    omega

theorem digits_ff : ∀ k, ∀ q, q < 256 ^ k → (∀ j, j < k → q / 256 ^ j % 256 = 255) →
    q = 256 ^ k - 1 := by
  intro k
  induction k with
  | zero => intro q hq _; simpa using hq
  | succ k ih =>
    intro q hq hd
    have h0 : q % 256 = 255 := by simpa using hd 0 (by omega)
    have hq' : q / 256 < 256 ^ k := by
      apply Nat.div_lt_of_lt_mul
      rw [pow_succ] at hq
      omega
    have hd' : ∀ j, j < k → q / 256 / 256 ^ j % 256 = 255 := by
      intro j hj
      rw [Nat.div_div_eq_div_mul, ← pow_succ']
      exact hd (j + 1) (by omega)
    have hrec := ih (q / 256) hq' hd'
    have hpow : 0 < (256 : Nat) ^ k := Nat.pos_pow_of_pos k (by norm_num)
    rw [pow_succ]
    omega

theorem beByte_lt (p i : Nat) : beByte p i < 256 := Nat.mod_lt _ (by norm_num)

theorem beByte_div (p s i : Nat) (hi : i < s) (hs : s ≤ 8) :
    beByte p i = p / 2 ^ (8 * (8 - s)) / 256 ^ (s - 1 - i) % 256 := by
  unfold beByte
  rw [Nat.div_div_eq_div_mul]
  rw [show (256 : Nat) ^ (s - 1 - i) = 2 ^ (8 * (s - 1 - i)) by
    rw [show (256 : Nat) = 2 ^ 8 from rfl, ← pow_mul]]
  rw [← pow_add]
  rw [show 8 * (8 - s) + 8 * (s - 1 - i) = 8 * (7 - i) by omega]

theorem top_div_lt (p s : Nat) (hp : p < 2 ^ 64) (hs : s ≤ 8) :
    p / 2 ^ (8 * (8 - s)) < 256 ^ s := by
  apply Nat.div_lt_of_lt_mul
  calc p < 2 ^ 64 := hp
  _ ≤ 2 ^ (8 * (8 - s)) * 256 ^ s := by
      rw [show (256 : Nat) ^ s = 2 ^ (8 * s) by
        rw [show (256 : Nat) = 2 ^ 8 from rfl, ← pow_mul]]
      rw [← pow_add, show 8 * (8 - s) + 8 * s = 64 by omega]

theorem top_zero (p s : Nat) (hp : p < 2 ^ 64) (hs : s ≤ 8)
    (h : ∀ i, i < s → beByte p i = 0) : p < 2 ^ (8 * (8 - s)) := by
  have hq := top_div_lt p s hp hs
  have h0 : p / 2 ^ (8 * (8 - s)) = 0 := by
    apply digits_zero s _ hq
    intro j hj
    have hb := h (s - 1 - j) (by omega)
    rw [beByte_div p s (s - 1 - j) (by omega) hs] at hb
    rw [show s - 1 - (s - 1 - j) = j by omega] at hb
    exact hb
  have hpos : 0 < 2 ^ (8 * (8 - s)) := Nat.pos_pow_of_pos _ (by norm_num)
  exact (Nat.div_eq_zero_iff hpos).mp h0

theorem top_ff (p s : Nat) (hp : p < 2 ^ 64) (hs : s ≤ 8)
    (h : ∀ i, i < s → beByte p i = 255) : p / 2 ^ (8 * (8 - s)) = 2 ^ (8 * s) - 1 := by
  have hq := top_div_lt p s hp hs
  have h0 : p / 2 ^ (8 * (8 - s)) = 256 ^ s - 1 := by
    apply digits_ff s _ hq
    intro j hj
    have hb := h (s - 1 - j) (by omega)
    rw [beByte_div p s (s - 1 - j) (by omega) hs] at hb
    rw [show s - 1 - (s - 1 - j) = j by omega] at hb
    exact hb
  rw [h0]
  rw [show (256 : Nat) ^ s = 2 ^ (8 * s) by
    rw [show (256 : Nat) = 2 ^ 8 from rfl, ← pow_mul]]

theorem skipCount_spec (cond : Nat → Bool) :
    ∀ fuel s,
      s ≤ skipCount cond s fuel ∧
      skipCount cond s fuel ≤ s + fuel ∧
      (∀ i, s ≤ i → i < skipCount cond s fuel → i < 8 ∧ cond i = true) ∧
      (skipCount cond s fuel < s + fuel →
        ¬(skipCount cond s fuel < 8 ∧ cond (skipCount cond s fuel) = true)) := by
  intro fuel
  induction fuel with
  | zero =>
    intro s
    simp only [skipCount]
    exact ⟨le_refl s, by omega, fun i h1 h2 => absurd h2 (by omega), by omega⟩
  | succ fuel ih =>
    intro s
    by_cases hb : (decide (s < 8) && cond s) = true
    · have hstep : skipCount cond s (fuel + 1) = skipCount cond (s + 1) fuel := by
        simp only [skipCount, hb, if_true]
      obtain ⟨ih1, ih2, ih3, ih4⟩ := ih (s + 1)
      simp only [Bool.and_eq_true, decide_eq_true_eq] at hb
      rw [hstep]
      refine ⟨by omega, by omega, ?_, ?_⟩
      · intro i h1 h2
        rcases Nat.eq_or_lt_of_le h1 with rfl | h1'
        · exact ⟨hb.1, hb.2⟩
        · exact ih3 i h1' h2
      · intro h
        exact ih4 (by omega)
    · have hstep : skipCount cond s (fuel + 1) = s := by
        simp only [skipCount, hb]
        simp
      simp only [Bool.and_eq_true, decide_eq_true_eq] at hb
      rw [hstep]
      exact ⟨le_refl s, by omega, fun i h1 h2 => absurd h2 (by omega), fun _ => hb⟩

theorem beBytes8_eq_lowBytes (v : Nat) : beBytes8 v = lowBytes v 8 := by
  unfold beBytes8 lowBytes beByte
  apply List.map_congr_left
  intro i _
  congr 3

theorem beVal_beBytes8 (v : Nat) (hv : v < 2 ^ 64) : beVal (beBytes8 v) = v := by
  rw [beBytes8_eq_lowBytes, beVal_lowBytes]
  exact Nat.mod_eq_of_lt hv

theorem beBytes8_length (v : Nat) : (beBytes8 v).length = 8 := by
  simp [beBytes8]

/-- C2: the atom built as a UID from V is a Bytes atom of length 8 in Short
encoding holding V big-endian; its encoding is the header byte 0xA8
followed by those 8 bytes; get_uid on it returns exactly V; get_uint on it
raises an error. -/
theorem C2_uid_distinction (v : Nat) (hv : v < 2 ^ 64) :
    (atom.new_uid v).data_type = .BYTES ∧
    (atom.new_uid v).data_enc = .SHORT ∧
    (atom.new_uid v).bytes.length = 8 ∧
    (atom.new_uid v).bytes = beBytes8 v ∧
    atom.encode_bytes (atom.new_uid v) = 0xa8 :: beBytes8 v ∧
    atom.get_uid (atom.new_uid v) = .ok v ∧
    atom.get_uint (atom.new_uid v) = .error "Atom is not unsigned integer" := by
  refine ⟨rfl, rfl, beBytes8_length v, rfl, ?_, ?_, rfl⟩
  · show atom.encode_bytes ⟨.BYTES, .SHORT, 0, v, beBytes8 v⟩ = 0xa8 :: beBytes8 v
    unfold atom.encode_bytes
    simp [beBytes8_length]
  · unfold atom.get_uid
    simp only [atom.new_uid, beBytes8_length]
    norm_num
    exact beVal_beBytes8 v hv

/-- C2 witness at V = 0x0000000600000000: the encoding is the 9 bytes
A8 00 00 00 06 00 00 00 00 and get_uid recovers V. -/
theorem C2_uid_distinction_witness :
    (0x0000000600000000 : Nat) < 2 ^ 64 ∧
    atom.encode_bytes (atom.new_uid 0x0000000600000000) = 0xa8 :: beBytes8 0x0000000600000000 ∧
    beBytes8 0x0000000600000000 = [0x00, 0x00, 0x00, 0x06, 0x00, 0x00, 0x00, 0x00] ∧
    atom.get_uid (atom.new_uid 0x0000000600000000) = .ok 0x0000000600000000 :=
  ⟨by decide,
   (C2_uid_distinction 0x0000000600000000 (by decide)).2.2.2.2.1,
   by decide,
   (C2_uid_distinction 0x0000000600000000 (by decide)).2.2.2.2.2.1⟩

/-- C4: after decoding the reply datum, `drive::invoke` requires exactly
six bytes of trailing data, reads the status as the third byte of that
trailer (offset count+2), raises MethodFailed exactly when that byte is
nonzero, and returns the parsed reply datum when it is zero; in particular
a reply ending 0xF9 0xF0 0x01 0x00 0x00 0xF1 fails with status
NotAuthorized (0x01). -/
theorem C4_method_status (bytes : List Nat) (rc : datum) (count : Nat)
    (hdec : datum.decode_vector bytes = .ok (rc, count)) :
    (bytes.length - count ≠ 6 → drive.invoke_reply bytes = .error .invalidStatus) ∧
    (bytes.length - count = 6 →
      (bytes.getD (count + 2) 0 ≠ 0 →
        drive.invoke_reply bytes = .error (.methodFailed (bytes.getD (count + 2) 0))) ∧
      (bytes.getD (count + 2) 0 = 0 → drive.invoke_reply bytes = .ok rc)) ∧
    drive.invoke_reply [0xf0, 0xf1, 0xf9, 0xf0, 0x01, 0x00, 0x00, 0xf1] =
      .error (.methodFailed 0x01) := by
  refine ⟨fun h6 => ?_, fun h6 => ⟨fun hst => ?_, fun hst => ?_⟩, rfl⟩
  · simp [drive.invoke_reply, hdec, h6]
  · simp only [List.getD_eq_getElem?_getD] at hst ⊢
    simp [drive.invoke_reply, hdec, h6, hst]
  · simp only [List.getD_eq_getElem?_getD] at hst ⊢
    simp [drive.invoke_reply, hdec, h6, hst]

/-- C4 witness: a reply consisting of an empty list followed by the
canonical success trailer parses with a zero status. -/
theorem C4_method_status_witness :
    drive.invoke_reply [0xf0, 0xf1, 0xf9, 0xf0, 0x00, 0x00, 0x00, 0xf1] =
      .ok (.listD []) :=
  ((C4_method_status [0xf0, 0xf1, 0xf9, 0xf0, 0x00, 0x00, 0x00, 0xf1]
      (.listD []) 2 rfl).2.1 rfl).2 rfl

/-- C5: a method call whose invoking UID is the session manager goes out
with both PacketHeader session-id fields zero; any other outgoing datum
with a live session carries the current (tper, host) pair as u32 fields;
with no session (host id zero) the send fails with the session-required
error before transmitting. -/
theorem C5_session_id_placement (outbuf : datum) (tper host : Nat) :
    (outbuf.get_type = .METHOD ∧ outbuf.object_uid = SESSION_MGR →
      drive.send_session_ids outbuf tper host = .ok (0, 0)) ∧
    (¬(outbuf.get_type = .METHOD ∧ outbuf.object_uid = SESSION_MGR) →
      (host = 0 → drive.send_session_ids outbuf tper host = .error .sessionRequired) ∧
      (host ≠ 0 → drive.send_session_ids outbuf tper host =
        .ok (tper % 2 ^ 32, host % 2 ^ 32))) := by
  refine ⟨fun h => ?_, fun h => ⟨fun h0 => ?_, fun h0 => ?_⟩⟩
  · simp [drive.send_session_ids, h]
  · simp [drive.send_session_ids, h, h0]
  · simp [drive.send_session_ids, h, h0]

/-- C5 witness: a session-manager Properties call goes out with zero ids; a
bare list with no session raises the session-required error; with a live
session the ids travel. -/
theorem C5_session_id_placement_witness :
    drive.send_session_ids (.methodD SESSION_MGR 0 [] 0) 7 9 = .ok (0, 0) ∧
    drive.send_session_ids (.listD []) 7 0 = .error .sessionRequired ∧
    drive.send_session_ids (.listD []) 7 9 = .ok (7 % 2 ^ 32, 9 % 2 ^ 32) :=
  ⟨(C5_session_id_placement (.methodD SESSION_MGR 0 [] 0) 7 9).1 ⟨rfl, rfl⟩,
   ((C5_session_id_placement (.listD []) 7 0).2 (by intro h; exact absurd h.1 (by simp [datum.get_type]))).1 rfl,
   ((C5_session_id_placement (.listD []) 7 9).2 (by intro h; exact absurd h.1 (by simp [datum.get_type]))).2 (by omega)⟩

/-- C6: the transmitted size is round-up-to-512 of (ComPacket header +
Packet header + round-up-to-4(SubPacket header + payload)); each header
length field is the size of that header's contents excluding itself; the
send fails with the oversize error, transmitting nothing, exactly when
this total exceeds max_com_pkt_size. -/
theorem C6_envelope_length_law (n max : Nat) :
    (drive.send_sizes n max = .error .oversize ↔
      max < PAD_TO_MULTIPLE
        (com_packet_header_size + packet_header_size +
          PAD_TO_MULTIPLE (sub_packet_header_size + n) 4) 512) ∧
    (n + 568 < 2 ^ 32 →
      PAD_TO_MULTIPLE
        (com_packet_header_size + packet_header_size +
          PAD_TO_MULTIPLE (sub_packet_header_size + n) 4) 512 ≤ max →
      drive.send_sizes n max = .ok
        ⟨PAD_TO_MULTIPLE
            (com_packet_header_size + packet_header_size +
              PAD_TO_MULTIPLE (sub_packet_header_size + n) 4) 512,
          packet_header_size + PAD_TO_MULTIPLE (sub_packet_header_size + n) 4,
          PAD_TO_MULTIPLE (sub_packet_header_size + n) 4,
          n⟩) := by
  have hpow : (2 : Nat) ^ 32 = 4294967296 := by norm_num
  simp only [drive.send_sizes, PAD_TO_MULTIPLE, com_packet_header_size,
    packet_header_size, sub_packet_header_size, ATA_BLOCK_SIZE, hpow]
  constructor
  · constructor
    · intro h
      by_contra hc
      rw [if_neg (by omega)] at h
      exact absurd h (by simp)
    · intro h
      rw [if_pos (by omega)]
  · intro h32 hle
    rw [if_neg (by omega)]
    simp only [Except.ok.injEq, send_envelope.mk.injEq]
    refine ⟨by omega, by omega, by omega, by omega⟩

/-- C6 witness at payload 4, max 512: the envelope is one full block with
length fields 40, 16 and 4. -/
theorem C6_envelope_length_law_witness :
    drive.send_sizes 4 512 = .ok
      ⟨PAD_TO_MULTIPLE
          (com_packet_header_size + packet_header_size +
            PAD_TO_MULTIPLE (sub_packet_header_size + 4) 4) 512,
        packet_header_size + PAD_TO_MULTIPLE (sub_packet_header_size + 4) 4,
        PAD_TO_MULTIPLE (sub_packet_header_size + 4) 4,
        4⟩ :=
  (C6_envelope_length_law 4 512).2 (by norm_num) (by decide)

/-- C9 counterexample: with a live session (5, 7), a Revert invocation that
times out propagates the exception and leaves both session ids untouched,
refuting "both are zero once the call returns or times out". -/
theorem C9_revert_counterexample :
    (drive.admin_sp_revert (5, 7) (.error .timeout)).2.1 = (5, 7) ∧
    ((5, 7) : Nat × Nat) ≠ (0, 0) := by
  constructor
  · rfl
  · decide

/-- C9 (amended): admin_sp_revert performs exactly the Revert invocation on
the Admin SP and never attempts an EndSession exchange; when the invocation
returns it zeroes both session ids; when it throws (e.g. on timeout) the
exception propagates and the ids are left unchanged. -/
theorem C9_revert_cleanup (st : Nat × Nat) (d : datum) (e : topaz_err) :
    drive.admin_sp_revert st (.ok d) =
      ([.invokeCall ADMIN_SP REVERT], (0, 0), none) ∧
    drive.admin_sp_revert st (.error e) =
      ([.invokeCall ADMIN_SP REVERT], st, some e) ∧
    (∀ r, drive_action.endSessionToken ∉ (drive.admin_sp_revert st r).1) := by
  refine ⟨rfl, rfl, fun r => ?_⟩
  cases r <;> simp [drive.admin_sp_revert]

/-- C9 witness: with live ids (5, 7), a successful Revert zeroes both ids,
a timed-out one leaves them at (5, 7), and no EndSession is attempted. -/
theorem C9_revert_cleanup_witness :
    drive.admin_sp_revert (5, 7) (.ok (.listD [])) =
      ([.invokeCall ADMIN_SP REVERT], (0, 0), none) ∧
    drive.admin_sp_revert (5, 7) (.error .timeout) =
      ([.invokeCall ADMIN_SP REVERT], (5, 7), some .timeout) ∧
    (∀ r, drive_action.endSessionToken ∉ (drive.admin_sp_revert (5, 7) r).1) :=
  ⟨(C9_revert_cleanup (5, 7) (.listD []) .timeout).1,
   (C9_revert_cleanup (5, 7) (.listD []) .timeout).2.1,
   (C9_revert_cleanup (5, 7) (.listD []) .timeout).2.2⟩

theorem tsb_run_zero_chunk (data : List Nat) (h : data.length ≠ 0) :
    ∀ fuel offset, drive.tsb_run 0 data offset fuel = none := by
  intro fuel
  induction fuel with
  | zero =>
    intro offset
    unfold drive.tsb_run
    rw [if_neg h]
  | succ fuel ih =>
    intro offset
    unfold drive.tsb_run
    rw [if_neg h]
    simp only [Nat.zero_min, List.drop_zero, Nat.add_zero]
    rw [ih offset]

/-- C10: whenever the uint64 overhead subtraction in table_set_bin leaves
less than 4096 (in particular at the constructor default
max_com_pkt_size = 512), the chunk size rounds down to zero, every
iteration sends min(chunk, len) = 0 bytes leaving the data untouched, and
the send loop never terminates for any nonempty data. -/
theorem C10_tsb_divergence (max : Nat) (h : drive.tsb_budget max < 4096) :
    drive.tsb_chunk_size max = 0 ∧
    (∀ data : List Nat, min (drive.tsb_chunk_size max) data.length = 0) ∧
    (∀ (data : List Nat) (offset fuel : Nat), data.length ≠ 0 →
      drive.tsb_run (drive.tsb_chunk_size max) data offset fuel = none) := by
  have hc : drive.tsb_chunk_size max = 0 := by
    unfold drive.tsb_chunk_size
    have : drive.tsb_budget max / 4096 = 0 := Nat.div_eq_of_lt h
    unfold drive.tsb_budget u64sub at this ⊢
    omega
  refine ⟨hc, fun data => by rw [hc]; omega, fun data offset fuel hne => ?_⟩
  rw [hc]
  exact tsb_run_zero_chunk data hne fuel offset

/-- C10 witness at the constructor default 512: the budget is 408, the
chunk size is zero and a 1-byte write never completes. -/
theorem C10_tsb_divergence_witness :
    drive.tsb_budget 512 < 4096 ∧
    drive.tsb_chunk_size 512 = 0 ∧
    drive.tsb_run (drive.tsb_chunk_size 512) [0xab] 0 100 = none :=
  ⟨by decide,
   (C10_tsb_divergence 512 (by decide)).1,
   (C10_tsb_divergence 512 (by decide)).2.2 [0xab] 0 100 (by decide)⟩

/-- C8 counterexample: at the constructor default max_com_pkt_size = 512
the derived chunk size is zero, so for a 1-byte payload the table_set_bin
loop sends only empty chunks and never completes: no finite sequence of Set
invocations is produced at all, so no sequence with the claimed properties
exists. -/
theorem C8_tsb_chunking_counterexample :
    ¬ ∃ cs, drive.tsb_produces 512 [0xab] 0 cs := by
  rintro ⟨cs, fuel, hrun⟩
  have h0 : drive.tsb_chunk_size 512 = 0 := by decide
  rw [h0, tsb_run_zero_chunk [0xab] (by decide) fuel 0] at hrun
  exact absurd hrun (by simp)

theorem recv_go_step_mism (my : Nat) (device : Nat → poll_resp) (k iters : Nat)
    (hm : (device k).com_id ≠ my) :
    drive.recv_go my device k iters = (.error .comIdMismatch, k + 1) := by
  unfold drive.recv_go
  rw [if_pos hm]

theorem recv_go_step_retry (my : Nat) (device : Nat → poll_resp) (k n : Nat)
    (hc : (device k).com_id = my) (h0 : (device k).com_length = 0) :
    drive.recv_go my device k (n + 2) = drive.recv_go my device (k + 1) (n + 1) := by
  conv_lhs => unfold drive.recv_go
  rw [if_neg (by simp [hc]), if_pos h0]

theorem recv_go_step_last (my : Nat) (device : Nat → poll_resp) (k : Nat)
    (hc : (device k).com_id = my) (h0 : (device k).com_length = 0) :
    drive.recv_go my device k 1 = (.error .timeout, k + 1) := by
  unfold drive.recv_go
  rw [if_neg (by simp [hc]), if_pos h0]

theorem recv_go_step_ok (my : Nat) (device : Nat → poll_resp) (k iters : Nat)
    (hc : (device k).com_id = my) (h0 : (device k).com_length ≠ 0)
    (hit : iters ≠ 0) :
    drive.recv_go my device k iters =
      (.ok ((device k).payload.take (device k).sub_length), k + 1) := by
  unfold drive.recv_go
  rw [if_neg (by simp [hc]), if_neg h0, if_neg hit]

theorem recv_go_calls (my : Nat) (device : Nat → poll_resp) :
    ∀ iters k, 0 < iters →
      k + 1 ≤ (drive.recv_go my device k iters).2 ∧
      (drive.recv_go my device k iters).2 ≤ k + iters := by
  intro iters
  induction iters using Nat.strong_induction_on with
  | _ iters ih =>
    intro k hpos
    by_cases h1 : (device k).com_id ≠ my
    · rw [recv_go_step_mism my device k iters h1]
      exact ⟨by simp, by simp; omega⟩
    · push_neg at h1
      by_cases h2 : (device k).com_length = 0
      · rcases Nat.lt_or_ge iters 2 with hit | hit
        · have h1' : iters = 1 := by omega
          subst h1'
          rw [recv_go_step_last my device k h1 h2]
          constructor <;> simp
        · obtain ⟨n, rfl⟩ : ∃ n, iters = n + 2 := ⟨iters - 2, by omega⟩
          rw [recv_go_step_retry my device k n h1 h2]
          have := ih (n + 1) (by omega) (k + 1) (by omega)
          constructor <;> omega
      · rw [recv_go_step_ok my device k iters h1 h2 (by omega)]
        exact ⟨by simp, by simp; omega⟩

theorem recv_go_timeout (my : Nat) (device : Nat → poll_resp) :
    ∀ iters k, 0 < iters →
      (∀ j, k ≤ j → j < k + iters →
        (device j).com_id = my ∧ (device j).com_length = 0) →
      drive.recv_go my device k iters = (.error .timeout, k + iters) := by
  intro iters
  induction iters using Nat.strong_induction_on with
  | _ iters ih =>
    intro k hpos hz
    have hk := hz k (le_refl k) (by omega)
    rcases Nat.lt_or_ge iters 2 with hit | hit
    · have h1' : iters = 1 := by omega
      subst h1'
      exact recv_go_step_last my device k hk.1 hk.2
    · obtain ⟨n, rfl⟩ : ∃ n, iters = n + 2 := ⟨iters - 2, by omega⟩
      rw [recv_go_step_retry my device k n hk.1 hk.2]
      have := ih (n + 1) (by omega) (k + 1) (by omega)
        (fun j hj1 hj2 => hz j (by omega) (by omega))
      rw [this]
      refine Prod.ext rfl ?_
      simp
      omega

theorem recv_go_mismatch (my : Nat) (device : Nat → poll_resp) :
    ∀ iters k j, 0 < iters → k ≤ j → j < k + iters →
      (∀ i, k ≤ i → i < j →
        (device i).com_id = my ∧ (device i).com_length = 0) →
      (device j).com_id ≠ my →
      drive.recv_go my device k iters = (.error .comIdMismatch, j + 1) := by
  intro iters
  induction iters using Nat.strong_induction_on with
  | _ iters ih =>
    intro k j hpos hkj hjb hz hm
    rcases Nat.eq_or_lt_of_le hkj with rfl | hkj'
    · exact recv_go_step_mism my device k iters hm
    · have hk := hz k (le_refl k) hkj'
      have hit : 2 ≤ iters := by omega
      obtain ⟨n, rfl⟩ : ∃ n, iters = n + 2 := ⟨iters - 2, by omega⟩
      rw [recv_go_step_retry my device k n hk.1 hk.2]
      exact ih (n + 1) (by omega) (k + 1) j (by omega) (by omega) (by omega)
        (fun i hi1 hi2 => hz i (by omega) hi2) hm

theorem recv_go_success (my : Nat) (device : Nat → poll_resp) :
    ∀ iters k j, 0 < iters → k ≤ j → j < k + iters →
      (∀ i, k ≤ i → i < j →
        (device i).com_id = my ∧ (device i).com_length = 0) →
      (device j).com_id = my → (device j).com_length ≠ 0 →
      drive.recv_go my device k iters =
        (.ok ((device j).payload.take (device j).sub_length), j + 1) := by
  intro iters
  induction iters using Nat.strong_induction_on with
  | _ iters ih =>
    intro k j hpos hkj hjb hz hcid hcl
    rcases Nat.eq_or_lt_of_le hkj with rfl | hkj'
    · exact recv_go_step_ok my device k iters hcid hcl (by omega)
    · have hk := hz k (le_refl k) hkj'
      have hit : 2 ≤ iters := by omega
      obtain ⟨n, rfl⟩ : ∃ n, iters = n + 2 := ⟨iters - 2, by omega⟩
      rw [recv_go_step_retry my device k n hk.1 hk.2]
      exact ih (n + 1) (by omega) (k + 1) j (by omega) (by omega) (by omega)
        (fun i hi1 hi2 => hz i (by omega) hi2) hcid hcl

/-- C7: recv polls one 512-byte block per if_recv call; the budget derived
from the 5-second timeout at 10 ms polls is 500 iterations; every call
makes between 1 and 500 polls; a ComID mismatch at the first
not-yet-answered poll fails immediately; a nonzero ComPacket length
delivers the SubPacket payload (sub_length bytes); and when all 500 polls
report a zero length the call gives up with the timeout error. -/
theorem C7_recv_polling (my : Nat) (device : Nat → poll_resp) :
    recv_max_iters = 500 ∧
    1 ≤ (drive.recv my device).2 ∧
    (drive.recv my device).2 ≤ 500 ∧
    (∀ j, j < 500 →
      (∀ i, i < j → (device i).com_id = my ∧ (device i).com_length = 0) →
      (device j).com_id ≠ my →
      drive.recv my device = (.error .comIdMismatch, j + 1)) ∧
    (∀ j, j < 500 →
      (∀ i, i < j → (device i).com_id = my ∧ (device i).com_length = 0) →
      (device j).com_id = my → (device j).com_length ≠ 0 →
      drive.recv my device =
        (.ok ((device j).payload.take (device j).sub_length), j + 1)) ∧
    ((∀ j, j < 500 → (device j).com_id = my ∧ (device j).com_length = 0) →
      drive.recv my device = (.error .timeout, 500)) := by
  have h500 : recv_max_iters = 500 := rfl
  have hcalls := recv_go_calls my device recv_max_iters 0 (by rw [h500]; omega)
  refine ⟨h500, ?_, ?_, ?_, ?_, ?_⟩
  · exact hcalls.1
  · have := hcalls.2
    rw [h500] at this
    simpa [drive.recv, h500] using this
  · intro j hj hz hm
    unfold drive.recv
    rw [h500]
    exact recv_go_mismatch my device 500 0 j (by omega) (by omega) (by omega)
      (fun i _ hi2 => hz i hi2) hm
  · intro j hj hz hcid hcl
    unfold drive.recv
    rw [h500]
    exact recv_go_success my device 500 0 j (by omega) (by omega) (by omega)
      (fun i _ hi2 => hz i hi2) hcid hcl
  · intro hz
    unfold drive.recv
    rw [h500]
    exact recv_go_timeout my device 500 0 (by omega) (fun j _ hj2 => hz j (by omega))

/-- C7 witness: a device that answers "not ready" three times and then
returns a packet with SubPacket length 2 is polled exactly 4 times. -/
theorem C7_recv_polling_witness :
    drive.recv 7 (fun k => if k < 3 then ⟨7, 0, 0, []⟩ else ⟨7, 60, 2, [1, 2, 3]⟩) =
      (.ok [1, 2], 4) := by
  have h := (C7_recv_polling 7
    (fun k => if k < 3 then ⟨7, 0, 0, []⟩ else ⟨7, 60, 2, [1, 2, 3]⟩)).2.2.2.2.1
    3 (by omega) (by intro i hi; interval_cases i <;> exact ⟨rfl, rfl⟩)
    (by norm_num) (by norm_num)
  simpa using h

theorem tsb_run_nil (c : Nat) (data : List Nat) (offset fuel : Nat)
    (hd : data.length = 0) : drive.tsb_run c data offset fuel = some [] := by
  unfold drive.tsb_run
  rw [if_pos hd]

theorem tsb_run_step (c : Nat) (data : List Nat) (offset fuel : Nat)
    (hd : data.length ≠ 0) :
    drive.tsb_run c data offset (fuel + 1) =
      match drive.tsb_run c (data.drop (min c data.length))
          (offset + min c data.length) fuel with
      | some rest => some ((offset, data.take (min c data.length)) :: rest)
      | none => none := by
  conv_lhs => unfold drive.tsb_run
  rw [if_neg hd]

theorem tsb_run_pos_spec (c : Nat) (hc : 0 < c) :
    ∀ (fuel : Nat) (data : List Nat) (offset : Nat), data.length ≤ fuel →
      ∃ cs, drive.tsb_run c data offset fuel = some cs ∧
        (cs.map Prod.snd).flatten = data ∧
        (cs = [] ↔ data = []) ∧
        (∀ i, i + 1 < cs.length → (cs.getD i (0, [])).2.length = c) ∧
        (cs ≠ [] → (cs.getD (cs.length - 1) (0, [])).2.length =
          data.length - c * (cs.length - 1)) ∧
        (∀ i, i < cs.length → (cs.getD i (0, [])).1 =
          offset + ((cs.take i).map (fun x => x.2.length)).sum) := by
  intro fuel
  induction fuel with
  | zero =>
    intro data offset hlen
    have hd : data = [] := List.length_eq_zero.mp (by omega)
    subst hd
    refine ⟨[], tsb_run_nil c [] offset 0 rfl, by simp, by simp, ?_, ?_, ?_⟩
    · intro i hi
      simp at hi
    · intro h
      exact absurd rfl h
    · intro i hi
      simp at hi
  | succ fuel ih =>
    intro data offset hlen
    by_cases hd : data.length = 0
    · have hd' : data = [] := List.length_eq_zero.mp hd
      subst hd'
      refine ⟨[], tsb_run_nil c [] offset (fuel + 1) rfl, by simp, by simp, ?_, ?_, ?_⟩
      · intro i hi
        simp at hi
      · intro h
        exact absurd rfl h
      · intro i hi
        simp at hi
    · set s := min c data.length with hs
      have hs1 : 1 ≤ s := by omega
      have hslen : s ≤ data.length := by omega
      obtain ⟨rest, hrun, hjoin, hiff, hfull, hlast, hoff⟩ :=
        ih (data.drop s) (offset + s) (by simp [List.length_drop]; omega)
      have hdroplen : (data.drop s).length = data.length - s := List.length_drop s data
      have hrest_ne : rest ≠ [] → s = c := by
        intro hr
        have hdne : data.drop s ≠ [] := fun h => hr (hiff.mpr h)
        have : 0 < (data.drop s).length := List.length_pos.mpr hdne
        omega
      refine ⟨(offset, data.take s) :: rest, ?_, ?_, ?_, ?_, ?_, ?_⟩
      · rw [tsb_run_step c data offset fuel hd, ← hs, hrun]
      · simp only [List.map_cons, List.flatten_cons, hjoin]
        exact List.take_append_drop s data
      · exact iff_of_false (by simp) (fun h => hd (by simp [h]))
      · intro i hi
        match i with
        | 0 =>
          simp only [List.getD_cons_zero]
          simp only [List.length_cons] at hi
          have hr : rest ≠ [] := fun h => by simp [h] at hi
          have hsc := hrest_ne hr
          simp only [List.length_take]
          omega
        | i + 1 =>
          rw [List.getD_cons_succ]
          exact hfull i (by simpa using hi)
      · intro _
        simp only [List.length_cons, Nat.add_sub_cancel]
        by_cases hr : rest = []
        · subst hr
          simp only [List.length_nil, List.getD_cons_zero]
          have hde : data.drop s = [] := hiff.mp rfl
          have : (data.drop s).length = 0 := by rw [hde]; rfl
          simp only [List.length_take]
          omega
        · have hsc := hrest_ne hr
          obtain ⟨m, hm⟩ : ∃ m, rest.length = m + 1 :=
            ⟨rest.length - 1, by have := List.length_pos.mpr hr; omega⟩
          rw [hm, List.getD_cons_succ]
          have hl := hlast hr
          rw [hm] at hl
          simp only [Nat.add_sub_cancel] at hl
          rw [hl, hdroplen]
          have hlt : s < data.length := by
            have hdne : data.drop s ≠ [] := fun h => hr (hiff.mpr h)
            have := List.length_pos.mpr hdne
            omega
          rw [Nat.mul_succ]
          omega
      · intro i hi
        match i with
        | 0 =>
          simp
        | i + 1 =>
          rw [List.getD_cons_succ]
          simp only [List.length_cons] at hi
          have h6 := hoff i (by omega)
          rw [h6]
          rw [List.take_succ_cons, List.map_cons, List.sum_cons]
          simp only [List.length_take]
          have : min s data.length = s := min_eq_left hslen
          rw [this]
          omega

/-- C8 (amended): provided the derived chunk size is positive,
table_set_bin on nonempty data terminates and sends a sequence of Set
invocations whose concatenated data chunks equal the data in order; the
chunk size is the largest multiple of 4096 that fits in max_com_pkt_size
minus the envelope and method-call overhead; every chunk except possibly
the last has that length, the final chunk is the remainder, and each
invocation's offset argument is the initial offset plus the bytes already
sent. -/
theorem C8_tsb_chunking (max : Nat) (data : List Nat) (offset : Nat)
    (hpos : 0 < drive.tsb_chunk_size max) (hne : data ≠ []) :
    4096 ∣ drive.tsb_chunk_size max ∧
    drive.tsb_chunk_size max ≤ drive.tsb_budget max ∧
    (∀ m, 4096 ∣ m → m ≤ drive.tsb_budget max → m ≤ drive.tsb_chunk_size max) ∧
    ∃ cs, drive.tsb_produces max data offset cs ∧ cs ≠ [] ∧
      (cs.map Prod.snd).flatten = data ∧
      (∀ i, i + 1 < cs.length →
        (cs.getD i (0, [])).2.length = drive.tsb_chunk_size max) ∧
      ((cs.getD (cs.length - 1) (0, [])).2.length =
        data.length - drive.tsb_chunk_size max * (cs.length - 1)) ∧
      (∀ i, i < cs.length → (cs.getD i (0, [])).1 =
        offset + ((cs.take i).map (fun x => x.2.length)).sum) := by
  refine ⟨⟨drive.tsb_budget max / 4096, ?_⟩, ?_, ?_, ?_⟩
  · unfold drive.tsb_chunk_size
    ring
  · exact Nat.div_mul_le_self _ _
  · rintro m ⟨q, rfl⟩ hle
    unfold drive.tsb_chunk_size
    have hq : q ≤ drive.tsb_budget max / 4096 :=
      (Nat.le_div_iff_mul_le (by norm_num)).mpr (by omega)
    calc 4096 * q ≤ 4096 * (drive.tsb_budget max / 4096) := by omega
    _ = drive.tsb_budget max / 4096 * 4096 := by ring
  · obtain ⟨cs, hrun, hjoin, hiff, hfull, hlast, hoff⟩ :=
      tsb_run_pos_spec (drive.tsb_chunk_size max) hpos data.length data offset
        (le_refl _)
    have hcs : cs ≠ [] := fun h => hne (hiff.mp h)
    exact ⟨cs, ⟨data.length, hrun⟩, hcs, hjoin, hfull, hlast hcs, hoff⟩

/-- C8 witness: with max_com_pkt_size = 8192 the chunk size is 4096 and a
3-byte write goes out as a single Set invocation carrying all the data. -/
theorem C8_tsb_chunking_witness :
    0 < drive.tsb_chunk_size 8192 ∧
    4096 ∣ drive.tsb_chunk_size 8192 ∧
    drive.tsb_chunk_size 8192 ≤ drive.tsb_budget 8192 ∧
    (∀ m, 4096 ∣ m → m ≤ drive.tsb_budget 8192 → m ≤ drive.tsb_chunk_size 8192) ∧
    ∃ cs, drive.tsb_produces 8192 [1, 2, 3] 5 cs ∧ cs ≠ [] ∧
      (cs.map Prod.snd).flatten = [1, 2, 3] ∧
      (∀ i, i + 1 < cs.length →
        (cs.getD i (0, [])).2.length = drive.tsb_chunk_size 8192) ∧
      ((cs.getD (cs.length - 1) (0, [])).2.length =
        ([1, 2, 3] : List Nat).length - drive.tsb_chunk_size 8192 * (cs.length - 1)) ∧
      (∀ i, i < cs.length → (cs.getD i (0, [])).1 =
        5 + ((cs.take i).map (fun x => x.2.length)).sum) :=
  ⟨by decide, C8_tsb_chunking 8192 [1, 2, 3] 5 (by decide) (by decide)⟩

theorem getD_map_range (f : Nat → Nat) (n j : Nat) (h : j < n) :
    ((List.range n).map f).getD j 0 = f j := by
  rw [List.getD_eq_getElem _ _ (by simpa using h)]
  simp

set_option maxHeartbeats 1000000

theorem uint_skip_facts (v : Nat) (h1 : 0x40 ≤ v) (h2 : v < 2 ^ 64) :
    skipCount (uintSkipCond v) 0 8 ≤ 7 ∧
    (∀ i, i < skipCount (uintSkipCond v) 0 8 → beByte v i = 0) := by
  obtain ⟨hs0, hs8, hcond, hstop⟩ := skipCount_spec (uintSkipCond v) 8 0
  set s := skipCount (uintSkipCond v) 0 8 with hs
  have hzero : ∀ i, i < s → beByte v i = 0 := by
    intro i hi
    have := (hcond i (by omega) hi).2
    simpa [uintSkipCond] using this
  refine ⟨?_, hzero⟩
  by_contra hcon
  have hseq : s = 8 := by omega
  have htz := top_zero v 8 h2 (le_refl 8) (fun i hi => hzero i (by omega))
  norm_num at htz
  omega

theorem pos_skip_facts (p : Nat) (h1 : 0x20 ≤ p) (h2 : p < 2 ^ 63) :
    skipCount (posSkipCond p) 0 8 ≤ 7 ∧
    (∀ i, i < skipCount (posSkipCond p) 0 8 → beByte p i = 0) ∧
    beByte p (skipCount (posSkipCond p) 0 8) < 128 := by
  obtain ⟨hs0, hs8, hcond, hstop⟩ := skipCount_spec (posSkipCond p) 8 0
  set s := skipCount (posSkipCond p) 0 8 with hs
  have hp64 : p < 2 ^ 64 := lt_trans h2 (by norm_num)
  have hzero : ∀ i, i < s → beByte p i = 0 := by
    intro i hi
    have := (hcond i (by omega) hi).2
    simp [posSkipCond] at this
    exact this.1
  have h7 : s ≤ 7 := by
    by_contra hcon
    have hseq : s = 8 := by omega
    have htz := top_zero p 8 hp64 (le_refl 8) (fun i hi => hzero i (by omega))
    norm_num at htz
    omega
  refine ⟨h7, hzero, ?_⟩
  rcases Nat.eq_zero_or_pos s with h0 | hpos
  · rw [h0]
    unfold beByte
    norm_num
    omega
  · have hc := (hcond (s - 1) (by omega) (by omega)).2
    simp [posSkipCond] at hc
    have hb := hc.2
    rw [show s - 1 + 1 = s by omega] at hb
    have hlt := beByte_lt p s
    omega

theorem neg_skip_facts (p : Nat) (h1 : 2 ^ 63 ≤ p) (h2 : p < 2 ^ 64 - 0x20) :
    skipCount (negSkipCond p) 0 8 ≤ 7 ∧
    (∀ i, i < skipCount (negSkipCond p) 0 8 → beByte p i = 255) ∧
    128 ≤ beByte p (skipCount (negSkipCond p) 0 8) := by
  obtain ⟨hs0, hs8, hcond, hstop⟩ := skipCount_spec (negSkipCond p) 8 0
  set s := skipCount (negSkipCond p) 0 8 with hs
  have hp64 : p < 2 ^ 64 := by omega
  have hff : ∀ i, i < s → beByte p i = 255 := by
    intro i hi
    have := (hcond i (by omega) hi).2
    simp [negSkipCond] at this
    exact this.1
  have h7 : s ≤ 7 := by
    by_contra hcon
    have hseq : s = 8 := by omega
    have htf := top_ff p 8 hp64 (le_refl 8) (fun i hi => hff i (by omega))
    norm_num at htf
    omega
  refine ⟨h7, hff, ?_⟩
  rcases Nat.eq_zero_or_pos s with h0 | hpos
  · rw [h0]
    unfold beByte
    norm_num
    omega
  · have hc := (hcond (s - 1) (by omega) (by omega)).2
    simp [negSkipCond] at hc
    have hb := hc.2
    rw [show s - 1 + 1 = s by omega] at hb
    have hlt := beByte_lt p s
    omega

theorem decode_uint_short (v s : Nat) (hv64 : v < 2 ^ 64)
    (hs7 : s ≤ 7) (hzero : ∀ i, i < s → beByte v i = 0) :
    atom.decode_bytes
      ((128 + (8 - s)) :: (List.range (8 - s)).map (fun j => beByte v (s + j))) =
      .ok (⟨.UINT, .SHORT, s, v, []⟩, 1 + (8 - s)) := by
  set payload := (List.range (8 - s)).map (fun j => beByte v (s + j)) with hpay
  have hplen : payload.length = 8 - s := by simp [hpay]
  unfold atom.decode_bytes
  rw [if_neg (by simp)]
  simp only [List.getD_cons_zero]
  rw [if_neg (by omega), if_neg (by omega), if_pos (by omega)]
  rw [show (128 + (8 - s)) / 16 % 4 = 0 by omega,
      show (128 + (8 - s)) % 16 = 8 - s by omega]
  dsimp only
  rw [show atom.decode_set_type 0 = Except.ok atom_type_t.UINT from rfl]
  dsimp only
  rw [if_neg (by simp only [List.length_cons, hplen]; omega)]
  rw [if_neg (by decide)]
  simp only [List.drop_succ_cons, List.drop_zero]
  rw [show List.take (8 - s) payload = payload from by
    rw [← hplen]; exact List.take_length payload]
  unfold atom.decode_int
  rw [if_neg (by omega)]
  rw [hplen, show 8 - (8 - s) = s from by omega]
  dsimp only
  have hraw : (List.range 8).map (fun i => if i < s then
        (if atom_type_t.UINT = atom_type_t.INT ∧ payload.getD 0 0 / 0x80 % 2 = 1
         then 0xff else 0)
      else payload.getD (i - s) 0) = beBytes8 v := by
    unfold beBytes8
    apply List.map_congr_left
    intro i hi
    simp only [List.mem_range] at hi
    by_cases his : i < s
    · rw [if_pos his, if_neg (by rintro ⟨h1, -⟩; exact absurd h1 (by decide))]
      exact (hzero i his).symm
    · rw [if_neg his]
      rw [hpay, getD_map_range _ _ _ (by omega)]
      congr 1
      omega
  rw [hraw, beVal_beBytes8 v hv64]

theorem decode_int_short_pos (p s : Nat) (hp64 : p < 2 ^ 64)
    (hs7 : s ≤ 7) (hzero : ∀ i, i < s → beByte p i = 0)
    (hb : beByte p s < 128) :
    atom.decode_bytes
      ((144 + (8 - s)) :: (List.range (8 - s)).map (fun j => beByte p (s + j))) =
      .ok (⟨.INT, .SHORT, s, p, []⟩, 1 + (8 - s)) := by
  set payload := (List.range (8 - s)).map (fun j => beByte p (s + j)) with hpay
  have hplen : payload.length = 8 - s := by simp [hpay]
  have hget0 : payload.getD 0 0 = beByte p s := by
    rw [hpay, getD_map_range _ _ _ (by omega)]
    simp
  unfold atom.decode_bytes
  rw [if_neg (by simp)]
  simp only [List.getD_cons_zero]
  rw [if_neg (by omega), if_neg (by omega), if_pos (by omega)]
  rw [show (144 + (8 - s)) / 16 % 4 = 1 by omega,
      show (144 + (8 - s)) % 16 = 8 - s by omega]
  dsimp only
  rw [show atom.decode_set_type 1 = Except.ok atom_type_t.INT from rfl]
  dsimp only
  rw [if_neg (by simp only [List.length_cons, hplen]; omega)]
  rw [if_neg (by decide)]
  simp only [List.drop_succ_cons, List.drop_zero]
  rw [show List.take (8 - s) payload = payload from by
    rw [← hplen]; exact List.take_length payload]
  unfold atom.decode_int
  rw [if_neg (by omega)]
  rw [hplen, show 8 - (8 - s) = s from by omega]
  dsimp only
  have hnext : ¬(atom_type_t.INT = atom_type_t.INT ∧ payload.getD 0 0 / 0x80 % 2 = 1) := by
    rintro ⟨-, h2⟩
    rw [hget0] at h2
    omega
  have hraw : (List.range 8).map (fun i => if i < s then
        (if atom_type_t.INT = atom_type_t.INT ∧ payload.getD 0 0 / 0x80 % 2 = 1
         then 0xff else 0)
      else payload.getD (i - s) 0) = beBytes8 p := by
    unfold beBytes8
    apply List.map_congr_left
    intro i hi
    simp only [List.mem_range] at hi
    by_cases his : i < s
    · rw [if_pos his, if_neg hnext]
      exact (hzero i his).symm
    · rw [if_neg his]
      rw [hpay, getD_map_range _ _ _ (by omega)]
      congr 1
      omega
  rw [hraw, beVal_beBytes8 p hp64]

theorem decode_int_short_neg (p s : Nat) (hp64 : p < 2 ^ 64)
    (hs7 : s ≤ 7) (hff : ∀ i, i < s → beByte p i = 255)
    (hb : 128 ≤ beByte p s) :
    atom.decode_bytes
      ((144 + (8 - s)) :: (List.range (8 - s)).map (fun j => beByte p (s + j))) =
      .ok (⟨.INT, .SHORT, s, p, []⟩, 1 + (8 - s)) := by
  set payload := (List.range (8 - s)).map (fun j => beByte p (s + j)) with hpay
  have hplen : payload.length = 8 - s := by simp [hpay]
  have hget0 : payload.getD 0 0 = beByte p s := by
    rw [hpay, getD_map_range _ _ _ (by omega)]
    simp
  unfold atom.decode_bytes
  rw [if_neg (by simp)]
  simp only [List.getD_cons_zero]
  rw [if_neg (by omega), if_neg (by omega), if_pos (by omega)]
  rw [show (144 + (8 - s)) / 16 % 4 = 1 by omega,
      show (144 + (8 - s)) % 16 = 8 - s by omega]
  dsimp only
  rw [show atom.decode_set_type 1 = Except.ok atom_type_t.INT from rfl]
  dsimp only
  rw [if_neg (by simp only [List.length_cons, hplen]; omega)]
  rw [if_neg (by decide)]
  simp only [List.drop_succ_cons, List.drop_zero]
  rw [show List.take (8 - s) payload = payload from by
    rw [← hplen]; exact List.take_length payload]
  unfold atom.decode_int
  rw [if_neg (by omega)]
  rw [hplen, show 8 - (8 - s) = s from by omega]
  dsimp only
  have hext : atom_type_t.INT = atom_type_t.INT ∧ payload.getD 0 0 / 0x80 % 2 = 1 := by
    refine ⟨rfl, ?_⟩
    rw [hget0]
    have := beByte_lt p s
    omega
  have hraw : (List.range 8).map (fun i => if i < s then
        (if atom_type_t.INT = atom_type_t.INT ∧ payload.getD 0 0 / 0x80 % 2 = 1
         then 0xff else 0)
      else payload.getD (i - s) 0) = beBytes8 p := by
    unfold beBytes8
    apply List.map_congr_left
    intro i hi
    simp only [List.mem_range] at hi
    by_cases his : i < s
    · rw [if_pos his, if_pos hext]
      exact (hff i his).symm
    · rw [if_neg his]
      rw [hpay, getD_map_range _ _ _ (by omega)]
      congr 1
      omega
  rw [hraw, beVal_beBytes8 p hp64]

theorem decode_tiny_uint (v : Nat) (hv : v < 64) :
    atom.decode_bytes [v] = .ok (⟨.UINT, .TINY, 0, v, []⟩, 1) := by
  unfold atom.decode_bytes
  rw [if_neg (by simp)]
  simp only [List.getD_cons_zero]
  rw [if_neg (by omega), if_pos (by omega)]
  rw [show v / 64 % 4 = 0 by omega]
  rw [show atom.decode_set_type 0 = Except.ok atom_type_t.UINT from rfl]
  dsimp only
  rw [if_neg (by rintro ⟨h1, -⟩; exact absurd h1 (by decide))]
  rw [show v % 64 = v by omega]

theorem decode_tiny_int (p : Nat) (hp : p < 2 ^ 64)
    (hcase : p < 32 ∨ 2 ^ 64 - 32 ≤ p) :
    atom.decode_bytes [64 + p % 64] = .ok (⟨.INT, .TINY, 0, p, []⟩, 1) := by
  unfold atom.decode_bytes
  rw [if_neg (by simp)]
  simp only [List.getD_cons_zero]
  rw [if_neg (by omega), if_pos (by omega)]
  rw [show (64 + p % 64) / 64 % 4 = 1 by omega]
  rw [show atom.decode_set_type 1 = Except.ok atom_type_t.INT from rfl]
  dsimp only
  rcases hcase with hsmall | hbig
  · rw [if_neg (by rintro ⟨-, h2⟩; omega)]
    rw [show (64 + p % 64) % 64 = p by omega]
  · rw [if_pos ⟨rfl, by omega⟩]
    rw [show 2 ^ 64 - 0x40 + (64 + p % 64) % 0x40 = p by omega]

theorem decode_bin_short (bs : List Nat) (h : bs.length < 16) :
    atom.decode_bytes ((160 + bs.length) :: bs) =
      .ok (⟨.BYTES, .SHORT, 0, 0, bs⟩, 1 + bs.length) := by
  unfold atom.decode_bytes
  rw [if_neg (by simp)]
  simp only [List.getD_cons_zero]
  rw [if_neg (by omega), if_neg (by omega), if_pos (by omega)]
  rw [show (160 + bs.length) / 16 % 4 = 2 by omega,
      show (160 + bs.length) % 16 = bs.length by omega]
  dsimp only
  rw [show atom.decode_set_type 2 = Except.ok atom_type_t.BYTES from rfl]
  dsimp only
  rw [if_neg (by simp only [List.length_cons]; omega)]
  rw [if_pos rfl]
  simp only [List.drop_succ_cons, List.drop_zero]
  rw [List.take_length bs]

theorem decode_bin_medium (bs : List Nat) (h : bs.length < 2048) :
    atom.decode_bytes ((208 + bs.length / 256) :: (bs.length % 256) :: bs) =
      .ok (⟨.BYTES, .MEDIUM, 0, 0, bs⟩, 2 + bs.length) := by
  unfold atom.decode_bytes
  rw [if_neg (by simp)]
  simp only [List.getD_cons_zero, List.getD_cons_succ]
  rw [if_neg (by omega), if_neg (by omega), if_neg (by omega), if_pos (by omega)]
  rw [if_neg (by simp only [List.length_cons]; omega)]
  rw [show (208 + bs.length / 256) / 8 % 4 = 2 by omega]
  rw [show (208 + bs.length / 256) % 8 * 256 + bs.length % 256 = bs.length by omega]
  dsimp only
  rw [show atom.decode_set_type 2 = Except.ok atom_type_t.BYTES from rfl]
  dsimp only
  rw [if_neg (by simp only [List.length_cons]; omega)]
  rw [if_pos rfl]
  simp only [List.drop_succ_cons, List.drop_zero]
  rw [List.take_length bs]

theorem decode_bin_long (bs : List Nat) (h : bs.length < 16777216) :
    atom.decode_bytes
      (226 :: (bs.length / 65536 % 256) :: (bs.length / 256 % 256) ::
        (bs.length % 256) :: bs) =
      .ok (⟨.BYTES, .LONG, 0, 0, bs⟩, 4 + bs.length) := by
  unfold atom.decode_bytes
  rw [if_neg (by simp)]
  simp only [List.getD_cons_zero, List.getD_cons_succ]
  rw [if_neg (by omega), if_neg (by omega), if_neg (by omega), if_neg (by omega),
      if_pos (by omega)]
  rw [if_neg (by simp only [List.length_cons]; omega)]
  rw [show (226 : Nat) % 4 = 2 by norm_num]
  rw [show (bs.length / 65536 % 256 * 256 + bs.length / 256 % 256) * 256 +
      bs.length % 256 = bs.length by omega]
  dsimp only
  rw [show atom.decode_set_type 2 = Except.ok atom_type_t.BYTES from rfl]
  dsimp only
  rw [if_neg (by simp only [List.length_cons]; omega)]
  rw [if_pos rfl]
  simp only [List.drop_succ_cons, List.drop_zero]
  rw [List.take_length bs]


theorem encode_uint_short_eq (v s : Nat) (bs : List Nat) :
    atom.encode_bytes ⟨.UINT, .SHORT, s, v, bs⟩ =
      (128 + (8 - s)) :: (List.range (8 - s)).map (fun j => beByte v (s + j)) := by
  simp [atom.encode_bytes]

theorem encode_int_short_eq (p s : Nat) (bs : List Nat) :
    atom.encode_bytes ⟨.INT, .SHORT, s, p, bs⟩ =
      (144 + (8 - s)) :: (List.range (8 - s)).map (fun j => beByte p (s + j)) := by
  simp [atom.encode_bytes]

theorem encode_tiny_uint_eq (v s : Nat) (bs : List Nat) (hv : v < 64) :
    atom.encode_bytes ⟨.UINT, .TINY, s, v, bs⟩ = [v] := by
  simp [atom.encode_bytes, Nat.mod_eq_of_lt hv]

theorem encode_tiny_int_eq (p s : Nat) (bs : List Nat) :
    atom.encode_bytes ⟨.INT, .TINY, s, p, bs⟩ = [64 + p % 64] := by
  simp [atom.encode_bytes]

theorem encode_bin_short_eq (sk v : Nat) (bs : List Nat) :
    atom.encode_bytes ⟨.BYTES, .SHORT, sk, v, bs⟩ = (160 + bs.length) :: bs := by
  simp [atom.encode_bytes]

theorem encode_bin_medium_eq (sk v : Nat) (bs : List Nat) :
    atom.encode_bytes ⟨.BYTES, .MEDIUM, sk, v, bs⟩ =
      (208 + bs.length / 256) :: (bs.length % 256) :: bs := by
  simp [atom.encode_bytes]

theorem encode_bin_long_eq (sk v : Nat) (bs : List Nat) :
    atom.encode_bytes ⟨.BYTES, .LONG, sk, v, bs⟩ =
      226 :: (bs.length / 65536 % 256) :: (bs.length / 256 % 256) ::
        (bs.length % 256) :: bs := by
  simp [atom.encode_bytes]

/-- C1: for every well-formed atom (Empty, Uint, Int, or Bytes with its
encoding class), the number of bytes written by encode equals
encoded_size, and decoding those bytes yields an atom equal to the
original (operator== equality, which includes the encoding class) while
consuming exactly encoded_size bytes. -/
theorem C1_atom_roundtrip (a : atom) (h : WellFormed a) :
    (atom.encode_bytes a).length = atom.size a ∧
    ∃ a2, atom.decode_bytes (atom.encode_bytes a) = .ok (a2, atom.size a) ∧
      atom.eqOp a a2 = true := by
  obtain ⟨t, e, sk, v, bs⟩ := a
  rcases h with ⟨ht, he⟩ | ⟨ht, hrest⟩ | ⟨ht, hrest⟩ | ⟨ht, hrest⟩ <;>
    dsimp only at *
  · -- EMPTY / NONE
    subst ht
    subst he
    exact ⟨rfl, ⟨.EMPTY, .NONE, 0, 0, []⟩, rfl, rfl⟩
  · -- UINT
    subst ht
    rcases hrest with ⟨he, hv⟩ | ⟨he, hv1, hv2, hsk⟩
    · subst he
      have hsz : atom.size ⟨.UINT, .TINY, sk, v, bs⟩ = 1 := by
        simp [atom.size]
      rw [hsz, encode_tiny_uint_eq v sk bs hv]
      exact ⟨rfl, ⟨.UINT, .TINY, 0, v, []⟩, decode_tiny_uint v hv,
        by simp [atom.eqOp]⟩
    · subst he
      subst hsk
      obtain ⟨hs7, hzero⟩ := uint_skip_facts v hv1 hv2
      set s := skipCount (uintSkipCond v) 0 8 with hsdef
      have hsz : atom.size ⟨.UINT, .SHORT, s, v, bs⟩ = 1 + (8 - s) := by
        simp [atom.size, atom.get_header_size]
      rw [hsz, encode_uint_short_eq v s bs]
      refine ⟨by simp; omega, ⟨.UINT, .SHORT, s, v, []⟩,
        decode_uint_short v s hv2 hs7 hzero, by simp [atom.eqOp]⟩
  · -- INT
    subst ht
    rcases hrest with ⟨he, hv⟩ | ⟨he, hcase⟩
    · subst he
      have hp64 : v < 2 ^ 64 := by
        rcases hv with h1 | ⟨h1, h2⟩
        · exact lt_trans h1 (by norm_num)
        · exact h2
      have hsz : atom.size ⟨.INT, .TINY, sk, v, bs⟩ = 1 := by
        simp [atom.size]
      rw [hsz, encode_tiny_int_eq v sk bs]
      refine ⟨rfl, ⟨.INT, .TINY, 0, v, []⟩,
        decode_tiny_int v hp64 ?_, by simp [atom.eqOp]⟩
      rcases hv with h1 | ⟨h1, h2⟩
      · exact Or.inl h1
      · exact Or.inr h1
    · subst he
      rcases hcase with ⟨h1, h2, hsk⟩ | ⟨h1, h2, hsk⟩
      · subst hsk
        obtain ⟨hs7, hzero, hbyte⟩ := pos_skip_facts v h1 h2
        set s := skipCount (posSkipCond v) 0 8 with hsdef
        have hp64 : v < 2 ^ 64 := lt_trans h2 (by norm_num)
        have hsz : atom.size ⟨.INT, .SHORT, s, v, bs⟩ = 1 + (8 - s) := by
          simp [atom.size, atom.get_header_size]
        rw [hsz, encode_int_short_eq v s bs]
        exact ⟨by simp; omega, ⟨.INT, .SHORT, s, v, []⟩,
          decode_int_short_pos v s hp64 hs7 hzero hbyte, by simp [atom.eqOp]⟩
      · subst hsk
        obtain ⟨hs7, hff, hbyte⟩ := neg_skip_facts v h1 h2
        set s := skipCount (negSkipCond v) 0 8 with hsdef
        have hp64 : v < 2 ^ 64 := by omega
        have hsz : atom.size ⟨.INT, .SHORT, s, v, bs⟩ = 1 + (8 - s) := by
          simp [atom.size, atom.get_header_size]
        rw [hsz, encode_int_short_eq v s bs]
        exact ⟨by simp; omega, ⟨.INT, .SHORT, s, v, []⟩,
          decode_int_short_neg v s hp64 hs7 hff hbyte, by simp [atom.eqOp]⟩
  · -- BYTES
    subst ht
    rcases hrest with ⟨he, hlen⟩ | ⟨he, hlen⟩ | ⟨he, hlen⟩
    · subst he
      have hsz : atom.size ⟨.BYTES, .SHORT, sk, v, bs⟩ = 1 + bs.length := by
        simp [atom.size, atom.get_header_size]
      rw [hsz, encode_bin_short_eq sk v bs]
      exact ⟨by simp; omega, ⟨.BYTES, .SHORT, 0, 0, bs⟩,
        decode_bin_short bs hlen, by simp [atom.eqOp]⟩
    · subst he
      have hsz : atom.size ⟨.BYTES, .MEDIUM, sk, v, bs⟩ = 2 + bs.length := by
        simp [atom.size, atom.get_header_size]
      rw [hsz, encode_bin_medium_eq sk v bs]
      exact ⟨by simp; omega, ⟨.BYTES, .MEDIUM, 0, 0, bs⟩,
        decode_bin_medium bs hlen, by simp [atom.eqOp]⟩
    · subst he
      have hsz : atom.size ⟨.BYTES, .LONG, sk, v, bs⟩ = 4 + bs.length := by
        simp [atom.size, atom.get_header_size]
      rw [hsz, encode_bin_long_eq sk v bs]
      exact ⟨by simp; omega, ⟨.BYTES, .LONG, 0, 0, bs⟩,
        decode_bin_long bs hlen, by simp [atom.eqOp]⟩


/-- C1 witness: the short-bytes atom for [0xAA, 0xBB] (spec scenario S2) is
well formed and round-trips: encode gives 3 = size bytes and decode
returns an equal atom consuming exactly size bytes. -/
theorem C1_atom_roundtrip_witness :
    WellFormed (atom.new_bin [0xaa, 0xbb]) ∧
    ((atom.encode_bytes (atom.new_bin [0xaa, 0xbb])).length =
        atom.size (atom.new_bin [0xaa, 0xbb]) ∧
      ∃ a2, atom.decode_bytes (atom.encode_bytes (atom.new_bin [0xaa, 0xbb])) =
          .ok (a2, atom.size (atom.new_bin [0xaa, 0xbb])) ∧
        atom.eqOp (atom.new_bin [0xaa, 0xbb]) a2 = true) :=
  ⟨by simp only [WellFormed]; decide,
   C1_atom_roundtrip (atom.new_bin [0xaa, 0xbb]) (by simp only [WellFormed]; decide)⟩

/-- C3: the claimed encodings for Uint(5), Int(-1) and Int(-32) are
0x05, 0x3F and 0x20; the decoder in `atom.cpp` places the tiny sign flag in
bit 6, so Int(-1) in fact encodes to 0x7F, refuting the 0x3F part. -/
theorem C3_tiny_counterexample :
    atom.encode_bytes (atom.new_int (-1)) ≠ [0x3f] := by decide

/-- C3 (amended): Uint(5) encodes to 0x05; with the tiny sign flag in bit 6
and the 6-bit two's-complement value in bits 0-5, Int(-1) encodes to 0x7F
and Int(-32) to 0x60. -/
theorem C3_tiny_encodings :
    atom.encode_bytes (atom.new_uint 5) = [0x05] ∧
    atom.encode_bytes (atom.new_int (-1)) = [0x7f] ∧
    atom.encode_bytes (atom.new_int (-32)) = [0x60] := by decide

end Topaz
